import Mathlib

/-!
Verification of the dual-backend Jira router and the bounded TTL Ollama
response cache of the jira-mcp repository.

The embedding follows the two implementations in the source tree:
  * the monolithic script jira_ollama_mcp.py (functions get_jira_client and
    ask_ollama, module-level configuration globals), and
  * the modular package jira_mcp (jira_client/client.py, ollama_client/client.py,
    config.py), whose get_jira_client additionally consults config.allowed_projects.

Python dicts preserve insertion order, so the cache is embedded as an
insertion-ordered association list.  Timestamps and the configuration
integers are embedded as Int, matching Python int arithmetic (time.time()
is a float; only its ordering and differences matter to the code, so an
integer-valued injectable clock is used, as the spec suggests for tests).
-/

namespace JiraMcp

/-- A connected Jira client object (a jira.JIRA instance).  Only identity
matters to the router, so a handle is a tagged value. -/
structure JiraHandle where
  id : Nat
deriving DecidableEq, Repr

/-- Embeds the prefix extraction performed by both copies of get_jira_client:
the Python code runs re.match on the pattern anchored at the start of the
key, capturing a maximal nonempty run of uppercase ASCII letters that must
be followed by a dash and at least one digit.  The regex engine first takes
the maximal letter run; backtracking to a shorter run always fails because
the character after a proper sub-run is another uppercase letter, never a
dash.  Hence: a match exists iff the maximal leading uppercase run is
nonempty, the next character is a dash, and the character after the dash is
a digit; the captured group is the maximal run.  (The Python digit class
also accepts non-ASCII decimal digits; every key considered in the claims
is ASCII.) -/
def projectPrefixOf (key : String) : Option String :=
  let cs := key.toList
  let run := cs.takeWhile Char.isUpper
  if run.isEmpty then none
  else
    match cs.dropWhile Char.isUpper with
    | '-' :: d :: _ => if d.isDigit then some (String.mk run) else none
    | _ => none

/-- Router state of the monolithic script jira_ollama_mcp.py: the module
globals primary_jira and secondary_jira (None when that backend is not
configured or failed to authenticate at startup) and the two prefix lists
secondary_project_prefixes and redhat_project_prefixes. -/
structure RouterState where
  primaryJira : Option JiraHandle
  secondaryJira : Option JiraHandle
  secondaryProjectPrefixes : List String
  redhatProjectPrefixes : List String

namespace Monolith

/-- Embeds get_jira_client of jira_ollama_mcp.py (lines 111-134):
empty (falsy) key returns None; a key with no extractable prefix defaults
to the primary client; a prefix in either secondary prefix list routes to
the secondary client; otherwise the primary client is returned. -/
def get_jira_client (st : RouterState) (ticketKey : String) : Option JiraHandle :=
  if ticketKey = "" then none
  else
    match projectPrefixOf ticketKey with
    | none => st.primaryJira
    | some p =>
      if p ∈ st.secondaryProjectPrefixes ∨ p ∈ st.redhatProjectPrefixes then
        st.secondaryJira
      else
        st.primaryJira

end Monolith

/-- A Python exception escaping from the modular get_jira_client. -/
inductive PyError where
  | attributeError (attr : String)
deriving DecidableEq, Repr

deriving instance DecidableEq for Except

/-- The attributes of the Config object (jira_mcp/config.py) that the
modular get_jira_client reads.  allowedProjects is an Option because the
attribute may be absent from the object: reading an absent attribute
raises AttributeError in Python. -/
structure ModularConfig where
  secondaryProjectPrefixes : List String
  redhatProjectPrefixes : List String
  allowedProjects : Option (List String)
deriving DecidableEq, Repr

/-- Helper for Python str.split on a comma: accumulates the current field
in reverse. -/
def splitCommaAux : List Char → List Char → List String
  | [], acc => [String.mk acc.reverse]
  | c :: rest, acc =>
    if c = ',' then String.mk acc.reverse :: splitCommaAux rest []
    else splitCommaAux rest (c :: acc)

/-- Python str.split with a comma separator: always yields at least one
field, so the empty string splits to a single empty field. -/
def pySplitComma (s : String) : List String :=
  splitCommaAux s.toList []

/-- Embeds Config._load_jira_config (jira_mcp/config.py lines 44-79),
restricted to the attributes the router reads.  The arguments are the
values of the environment variables SECONDARY_PROJECT_PREFIXES and
REDHAT_PROJECT_PREFIXES (none when unset).  The secondary list defaults to
the single prefix CNV; the redhat list defaults to the secondary list.
_load_jira_config never assigns an allowed_projects attribute, so that
attribute is absent from every Config it produces. -/
def loadJiraConfig (secondaryEnv redhatEnv : Option String) : ModularConfig :=
  let secondary := pySplitComma (secondaryEnv.getD "CNV")
  { secondaryProjectPrefixes := secondary
    redhatProjectPrefixes :=
      match redhatEnv with
      | some s => pySplitComma s
      | none => secondary
    allowedProjects := none }

namespace Modular

/-- Embeds get_jira_client of jira_mcp/jira_client/client.py (lines
89-124).  Differences from the monolithic copy: a key with no extractable
prefix returns None (not the primary client), and the fallback branch
reads config.allowed_projects, an attribute Config never defines, so that
branch raises AttributeError whenever the attribute is absent.  When the
attribute is present, an empty list or a listed prefix yields the primary
client, and an unlisted prefix yields None. -/
def get_jira_client (cfg : ModularConfig)
    (primaryJira secondaryJira : Option JiraHandle)
    (ticketKey : String) : Except PyError (Option JiraHandle) :=
  if ticketKey = "" then .ok none
  else
    match projectPrefixOf ticketKey with
    | none => .ok none
    | some p =>
      if p ∈ cfg.secondaryProjectPrefixes ∨ p ∈ cfg.redhatProjectPrefixes then
        .ok secondaryJira
      else
        match cfg.allowedProjects with
        | none => .error (.attributeError "allowed_projects")
        | some allowed =>
          if allowed = [] ∨ p ∈ allowed then .ok primaryJira
          else .ok none

end Modular

/-- Cache tuning parameters: config.ollama_cache_size and
config.ollama_cache_ttl, both read with int() from the environment
(defaults 50 and 3600). -/
structure OllamaConfig where
  cacheSize : Int
  cacheTtl : Int
deriving Repr

/-- One entry of the ollama_cache dict: key, insertion timestamp, cached
response text. -/
abbrev CacheEntry := String × Int × String

/-- The module-level ollama_cache dict, as an insertion-ordered
association list (Python dicts iterate in insertion order; assignment of
a new key appends). -/
abbrev Cache := List CacheEntry

/-- Embeds the cache key derivation of ask_ollama: the md5 hex digest of
prompt + (system_message or "").  md5 is a deterministic function of that
concatenation, and no claim depends on distinct concatenations having
distinct digests, so the digest is modelled by the concatenated string
itself. -/
def cacheKeyOf (prompt : String) (systemMessage : Option String) : String :=
  prompt ++ systemMessage.getD ""

/-- Dict lookup ollama_cache[key]: the entry for the first (unique, by the
dict discipline) occurrence of the key. -/
def cacheLookup (cache : Cache) (key : String) : Option (Int × String) :=
  match cache.find? (fun e => e.1 == key) with
  | some e => some e.2
  | none => none

/-- Dict deletion del ollama_cache[key]: removes the (unique) entry for
the key; first occurrence in the list model. -/
def cacheErase (cache : Cache) (key : String) : Cache :=
  cache.eraseP (fun e => e.1 == key)

/-- Embeds min(ollama_cache.keys(), key=lambda k: ollama_cache[k][0]):
the first entry (in insertion order) with minimal timestamp; none for an
empty dict, where Python min raises ValueError. -/
def oldestEntry : Cache → Option CacheEntry
  | [] => none
  | e :: rest =>
    some (rest.foldl (fun best x => if x.2.1 < best.2.1 then x else best) e)

/-- Outcome of the httpx.post call made by ask_ollama, at the granularity
the control flow distinguishes: the request raised an exception; or a
response arrived with a status code, a body text, and, when the status is
200, either the text extracted from the parsed JSON body by
_extract_response_text (some) or a json.JSONDecodeError (none).
_extract_response_text itself is a pure function of the parsed body and
is not the subject of any claim, so its result is carried as the payload. -/
inductive HttpOutcome where
  | exn (msg : String)
  | resp (statusCode : Int) (text : String) (parsed : Option String)

/-- Python str.find over char lists: index of the first occurrence of the
needle, none when absent (Python returns -1). -/
def strFindAux (needle : List Char) : List Char → Nat → Option Nat
  | [], i => if needle.isEmpty then some i else none
  | c :: rest, i =>
    if needle.isPrefixOf (c :: rest) then some i
    else strFindAux needle rest (i + 1)

/-- Python raw.find(needle): char index of the first occurrence. -/
def strFind (hay needle : List Char) : Option Nat :=
  strFindAux needle hay 0

/-- Python raw.find(needle, start): search from a start index, absolute
result index. -/
def strFindFrom (hay needle : List Char) (start : Nat) : Option Nat :=
  (strFindAux needle (hay.drop start) 0).map (· + start)

/-- The tail of _handle_json_error (jira_mcp/ollama_client/client.py lines
146-150), reached when no content field was salvaged: bodies of fewer than
5000 chars are echoed with a prefix, longer ones (and bodies of at most 10
chars) yield a fixed error message. -/
def handleJsonErrorFallback (rawText : String) : String :=
  if rawText.toList.length < 5000 then
    "Raw response (JSON parsing failed): " ++ rawText
  else
    "Error parsing Ollama response"

/-- Embeds _handle_json_error (jira_mcp/ollama_client/client.py lines
125-150): for bodies longer than 10 chars containing a quoted content key,
try to slice out the value between 11 chars past the start of that key and
the next quote-comma; otherwise fall through to the length-based fallback.
Bodies of at most 10 chars go straight to the fixed error message. -/
def handleJsonError (rawText : String) : String :=
  let raw := rawText.toList
  if raw.length > 10 then
    match strFind raw ("\"content\":".toList) with
    | some i =>
      let start := i + 11
      match strFindFrom raw ("\",".toList) start with
      | some endIdx =>
        if start < endIdx then String.mk ((raw.drop start).take (endIdx - start))
        else handleJsonErrorFallback rawText
      | none => handleJsonErrorFallback rawText
    | none => handleJsonErrorFallback rawText
  else
    "Error parsing Ollama response"

/-- Embeds the try-block of ask_ollama (jira_mcp/ollama_client/client.py
lines 39-93), entered after the cache lookup decided that the key needs a
fresh computation, against cache state c: on a 200 response with parsed
body, if the dict has reached cacheSize entries the entry with the oldest
timestamp is deleted (Python min raises ValueError on an empty dict, which
the JSONDecodeError clause does not catch, so the outer handler turns it
into an error string), then the new entry is stored and the text returned;
a JSONDecodeError is salvaged by _handle_json_error; a non-200 status or a
raised exception is reported as an error string.  No failure path touches
the cache. -/
def askOllamaCompute (cfg : OllamaConfig) (now : Int) (cacheKey : String)
    (outcome : HttpOutcome) (c : Cache) : String × Cache :=
  match outcome with
  | .exn msg => ("Error calling Ollama: " ++ msg, c)
  | .resp statusCode text parsed =>
    if statusCode = 200 then
      match parsed with
      | some responseText =>
        if cfg.cacheSize ≤ (c.length : Int) then
          match oldestEntry c with
          | none => ("Error calling Ollama: min() arg is an empty sequence", c)
          | some old =>
            (responseText, cacheErase c old.1 ++ [(cacheKey, now, responseText)])
        else
          (responseText, c ++ [(cacheKey, now, responseText)])
      | none => (handleJsonError text, c)
    else
      ("Error from Ollama API: " ++ toString statusCode, c)

/-- Embeds ask_ollama of jira_mcp/ollama_client/client.py (lines 14-93)
with an injectable clock (now) and the HTTP outcome as an explicit
argument.  Control flow, in source order: derive the key, look it up; a
fresh entry is returned at once with no computation; an expired entry is
deleted and the computation proceeds; a missing key computes directly. -/
def askOllama (cfg : OllamaConfig) (cache : Cache) (now : Int)
    (prompt : String) (systemMessage : Option String)
    (outcome : HttpOutcome) : String × Cache :=
  let cacheKey := cacheKeyOf prompt systemMessage
  match cacheLookup cache cacheKey with
  | some (timestamp, cachedResponse) =>
    if now - timestamp < cfg.cacheTtl then (cachedResponse, cache)
    else askOllamaCompute cfg now cacheKey outcome (cacheErase cache cacheKey)
  | none => askOllamaCompute cfg now cacheKey outcome cache

/-- One successful get-or-compute call, for stating capacity scenarios:
the prompt and system message, the injected clock value, the raw body
text, and the extracted response value. -/
structure InsertItem where
  prompt : String
  systemMessage : Option String
  time : Int
  httpText : String
  value : String

/-- The cache key an item produces. -/
def itemKey (it : InsertItem) : String := cacheKeyOf it.prompt it.systemMessage

/-- The cache entry a successful insertion of an item produces. -/
def itemEntry (it : InsertItem) : CacheEntry := (itemKey it, it.time, it.value)

/-- Runs a sequence of successful ask_ollama calls against the cache. -/
def runInserts (cfg : OllamaConfig) : Cache → List InsertItem → Cache
  | cache, [] => cache
  | cache, it :: rest =>
    runInserts cfg
      (askOllama cfg cache it.time it.prompt it.systemMessage
        (.resp 200 it.httpText (some it.value))).2
      rest

/-! Helper lemmas about the cache operations. -/

lemma cacheLookup_eq_none {cache : Cache} {k : String} :
    cacheLookup cache k = none ↔ ∀ e ∈ cache, e.1 ≠ k := by
  have h1 : cacheLookup cache k = none ↔ cache.find? (fun e => e.1 == k) = none := by
    unfold cacheLookup
    cases cache.find? (fun e => e.1 == k) <;> simp
  rw [h1, List.find?_eq_none]
  simp

lemma cacheLookup_append_self {c : Cache} {k : String} {t : Int} {v : String}
    (h : cacheLookup c k = none) :
    cacheLookup (c ++ [(k, t, v)]) k = some (t, v) := by
  have h1 : c.find? (fun e => e.1 == k) = none := by
    unfold cacheLookup at h
    cases hf : c.find? (fun e => e.1 == k) with
    | none => rfl
    | some e => rw [hf] at h; cases h
  unfold cacheLookup
  rw [List.find?_append, h1]
  simp [List.find?]

lemma cacheLookup_none_of_sublist {c c2 : Cache} {k : String}
    (hs : c2.Sublist c) (h : cacheLookup c k = none) :
    cacheLookup c2 k = none := by
  rw [cacheLookup_eq_none] at h ⊢
  exact fun e he => h e (hs.subset he)

lemma exists_of_cacheLookup {c : Cache} {k : String} {tv : Int × String}
    (h : cacheLookup c k = some tv) :
    ∃ e ∈ c, e.1 = k := by
  unfold cacheLookup at h
  cases hf : c.find? (fun e => e.1 == k) with
  | none => rw [hf] at h; cases h
  | some e =>
    exact ⟨e, List.mem_of_find?_eq_some hf, by simpa using List.find?_some hf⟩

lemma length_eraseP_lt {α : Type} {p : α → Bool} :
    ∀ {l : List α}, (∃ a ∈ l, p a) → (l.eraseP p).length < l.length := by
  intro l
  induction l with
  | nil => rintro ⟨a, ha, _⟩; cases ha
  | cons x xs ih =>
    rintro ⟨a, ha, hpa⟩
    rw [List.eraseP_cons]
    by_cases hx : p x
    · simp [hx]
    · have hmem : a ∈ xs := by
        rcases List.mem_cons.mp ha with rfl | hm
        · exact absurd hpa (by simp [hx])
        · exact hm
      simpa [hx, Nat.succ_lt_succ_iff] using ih ⟨a, hmem, hpa⟩

lemma length_cacheErase_lt {c : Cache} {k : String} {tv : Int × String}
    (h : cacheLookup c k = some tv) :
    (cacheErase c k).length < c.length := by
  obtain ⟨e, he, hek⟩ := exists_of_cacheLookup h
  exact length_eraseP_lt ⟨e, he, by simp [hek]⟩

lemma cacheErase_sublist (c : Cache) (k : String) : (cacheErase c k).Sublist c :=
  List.eraseP_sublist c

lemma oldestFoldl_mem :
    ∀ (rest : Cache) (a : CacheEntry),
      rest.foldl (fun best x => if x.2.1 < best.2.1 then x else best) a ∈ a :: rest := by
  intro rest
  induction rest with
  | nil => intro a; simp
  | cons x xs ih =>
    intro a
    simp only [List.foldl_cons]
    by_cases hx : x.2.1 < a.2.1
    · rw [if_pos hx]
      rcases List.mem_cons.mp (ih x) with h1 | h1
      · rw [h1]; simp
      · simp [h1]
    · rw [if_neg hx]
      rcases List.mem_cons.mp (ih a) with h1 | h1
      · rw [h1]; simp
      · simp [h1]

lemma oldestEntry_mem {c : Cache} {e : CacheEntry}
    (h : oldestEntry c = some e) : e ∈ c := by
  cases c with
  | nil => cases h
  | cons a rest =>
    unfold oldestEntry at h
    injection h with h
    rw [← h]
    exact oldestFoldl_mem rest a

lemma oldestEntry_isSome {c : Cache} (h : c ≠ []) :
    ∃ e, oldestEntry c = some e := by
  cases c with
  | nil => exact absurd rfl h
  | cons a rest => exact ⟨_, rfl⟩

lemma oldestFoldl_le :
    ∀ (rest : Cache) (a : CacheEntry) (x : CacheEntry), x ∈ a :: rest →
      (rest.foldl (fun best y => if y.2.1 < best.2.1 then y else best) a).2.1 ≤ x.2.1 := by
  intro rest
  induction rest with
  | nil =>
    intro a x hx
    rcases List.mem_cons.mp hx with rfl | hm
    · exact le_refl _
    · cases hm
  | cons y ys ih =>
    intro a x hx
    simp only [List.foldl_cons]
    have hb : (if y.2.1 < a.2.1 then y else a).2.1 ≤ a.2.1 ∧
        (if y.2.1 < a.2.1 then y else a).2.1 ≤ y.2.1 := by
      by_cases hy : y.2.1 < a.2.1
      · rw [if_pos hy]; exact ⟨le_of_lt hy, le_refl _⟩
      · rw [if_neg hy]; exact ⟨le_refl _, le_of_not_lt hy⟩
    have hself := ih (if y.2.1 < a.2.1 then y else a) _
      (List.mem_cons_self _ _)
    rcases List.mem_cons.mp hx with rfl | hm
    · exact le_trans hself hb.1
    · rcases List.mem_cons.mp hm with rfl | hm2
      · exact le_trans hself hb.2
      · exact ih _ x (List.mem_cons_of_mem _ hm2)

lemma oldestEntry_le {c : Cache} {e : CacheEntry}
    (h : oldestEntry c = some e) : ∀ x ∈ c, e.2.1 ≤ x.2.1 := by
  cases c with
  | nil => cases h
  | cons a rest =>
    unfold oldestEntry at h
    injection h with h
    intro x hx
    rw [← h]
    exact oldestFoldl_le rest a x hx

lemma oldestFoldl_of_min :
    ∀ (rest : Cache) (a : CacheEntry), (∀ x ∈ rest, a.2.1 ≤ x.2.1) →
      rest.foldl (fun best y => if y.2.1 < best.2.1 then y else best) a = a := by
  intro rest
  induction rest with
  | nil => intro a _; rfl
  | cons y ys ih =>
    intro a h
    simp only [List.foldl_cons]
    rw [if_neg (not_lt.mpr (h y (List.mem_cons_self _ _)))]
    exact ih a fun x hx => h x (List.mem_cons_of_mem _ hx)

lemma oldestEntry_cons_min {a : CacheEntry} {rest : Cache}
    (h : ∀ x ∈ rest, a.2.1 ≤ x.2.1) : oldestEntry (a :: rest) = some a := by
  show some (rest.foldl (fun best y => if y.2.1 < best.2.1 then y else best) a) = some a
  rw [oldestFoldl_of_min rest a h]

lemma askOllama_hit {cfg : OllamaConfig} {cache : Cache} {now ts : Int}
    {p : String} {s : Option String} {v : String}
    (hl : cacheLookup cache (cacheKeyOf p s) = some (ts, v))
    (hfresh : now - ts < cfg.cacheTtl) (o : HttpOutcome) :
    askOllama cfg cache now p s o = (v, cache) := by
  simp only [askOllama, hl, hfresh, if_true]

lemma askOllama_expired {cfg : OllamaConfig} {cache : Cache} {now ts : Int}
    {p : String} {s : Option String} {v : String}
    (hl : cacheLookup cache (cacheKeyOf p s) = some (ts, v))
    (hstale : ¬ (now - ts < cfg.cacheTtl)) (o : HttpOutcome) :
    askOllama cfg cache now p s o =
      askOllamaCompute cfg now (cacheKeyOf p s) o
        (cacheErase cache (cacheKeyOf p s)) := by
  simp only [askOllama, hl, hstale, if_false]

lemma askOllama_miss {cfg : OllamaConfig} {cache : Cache} {now : Int}
    {p : String} {s : Option String}
    (hl : cacheLookup cache (cacheKeyOf p s) = none) (o : HttpOutcome) :
    askOllama cfg cache now p s o =
      askOllamaCompute cfg now (cacheKeyOf p s) o cache := by
  simp only [askOllama, hl]

lemma askOllamaCompute_exn (cfg : OllamaConfig) (now : Int) (k m : String)
    (c : Cache) :
    askOllamaCompute cfg now k (.exn m) c = ("Error calling Ollama: " ++ m, c) :=
  rfl

lemma askOllamaCompute_badStatus {cfg : OllamaConfig} {now : Int} {k : String}
    {st : Int} (txt : String) (parsed : Option String) (c : Cache)
    (hst : st ≠ 200) :
    askOllamaCompute cfg now k (.resp st txt parsed) c
      = ("Error from Ollama API: " ++ toString st, c) := by
  simp only [askOllamaCompute]
  rw [if_neg hst]

lemma askOllamaCompute_parseError (cfg : OllamaConfig) (now : Int)
    (k txt : String) (c : Cache) :
    askOllamaCompute cfg now k (.resp 200 txt none) c = (handleJsonError txt, c) := by
  simp only [askOllamaCompute]
  simp

lemma askOllamaCompute_insert_small {cfg : OllamaConfig} {now : Int}
    {k : String} (txt v : String) {c : Cache}
    (hlen : (c.length : Int) < cfg.cacheSize) :
    askOllamaCompute cfg now k (.resp 200 txt (some v)) c
      = (v, c ++ [(k, now, v)]) := by
  simp only [askOllamaCompute]
  simp [not_le.mpr hlen]

lemma askOllamaCompute_insert_full {cfg : OllamaConfig} {now : Int}
    {k : String} (txt v : String) {c : Cache} {old : CacheEntry}
    (hlen : cfg.cacheSize ≤ (c.length : Int))
    (hold : oldestEntry c = some old) :
    askOllamaCompute cfg now k (.resp 200 txt (some v)) c
      = (v, cacheErase c old.1 ++ [(k, now, v)]) := by
  simp only [askOllamaCompute]
  simp [hlen, hold]

lemma askOllamaCompute_insert_val {cfg : OllamaConfig} {now : Int}
    {k : String} (txt v : String) (c : Cache)
    (hsize : 0 < cfg.cacheSize) :
    (askOllamaCompute cfg now k (.resp 200 txt (some v)) c).1 = v := by
  by_cases hfull : cfg.cacheSize ≤ (c.length : Int)
  · have hne : c ≠ [] := by
      intro h
      rw [h] at hfull
      simp at hfull
      omega
    obtain ⟨old, hold⟩ := oldestEntry_isSome hne
    rw [askOllamaCompute_insert_full txt v hfull hold]
  · rw [askOllamaCompute_insert_small txt v (not_le.mp hfull)]

lemma askOllamaCompute_length {cfg : OllamaConfig} {now : Int} {k : String}
    {o : HttpOutcome} {c : Cache}
    (hc : (c.length : Int) ≤ cfg.cacheSize) :
    (((askOllamaCompute cfg now k o c).2).length : Int) ≤ cfg.cacheSize := by
  cases o with
  | exn m => simpa using hc
  | resp st txt parsed =>
    by_cases hst : st = 200
    · subst hst
      cases parsed with
      | none => rw [askOllamaCompute_parseError]; simpa using hc
      | some v =>
        by_cases hfull : cfg.cacheSize ≤ (c.length : Int)
        · by_cases hnil : c = []
          · subst hnil
            simp only [askOllamaCompute]
            simp only [if_pos rfl, if_pos hfull, oldestEntry]
            simpa using hc
          · obtain ⟨old, hold⟩ := oldestEntry_isSome hnil
            rw [askOllamaCompute_insert_full txt v hfull hold]
            have hlt : (cacheErase c old.1).length < c.length :=
              length_eraseP_lt ⟨old, oldestEntry_mem hold, by simp⟩
            simp only [List.length_append, List.length_cons, List.length_nil]
            push_cast
            omega
        · rw [askOllamaCompute_insert_small txt v (not_le.mp hfull)]
          simp only [List.length_append, List.length_cons, List.length_nil]
          push_cast
          have := not_le.mp hfull
          push_cast at this
          omega
    · rw [askOllamaCompute_badStatus txt parsed c hst]
      simpa using hc

lemma askOllama_length {cfg : OllamaConfig} {cache : Cache} {now : Int}
    {p : String} {s : Option String} {o : HttpOutcome}
    (hc : (cache.length : Int) ≤ cfg.cacheSize) :
    (((askOllama cfg cache now p s o).2).length : Int) ≤ cfg.cacheSize := by
  cases hl : cacheLookup cache (cacheKeyOf p s) with
  | none =>
    rw [askOllama_miss hl o]
    exact askOllamaCompute_length hc
  | some tv =>
    obtain ⟨ts, v⟩ := tv
    by_cases hfresh : now - ts < cfg.cacheTtl
    · rw [askOllama_hit hl hfresh o]
      exact hc
    · rw [askOllama_expired hl hfresh o]
      refine askOllamaCompute_length (le_trans ?_ hc)
      exact_mod_cast (cacheErase_sublist cache (cacheKeyOf p s)).length_le

lemma ne_empty_of_projectPrefixOf {k P : String}
    (h : projectPrefixOf k = some P) : k ≠ "" := by
  intro hk
  subst hk
  have hnone : projectPrefixOf "" = none := rfl
  rw [hnone] at h
  cases h

/-! Claim theorems. -/

/-- C2: for every ticket key whose extracted prefix belongs to the
secondary (non-default) prefix sets, the router returns the secondary
handle when that backend is available and None when it is unavailable,
and never returns the primary handle for such a key; the modular copy of
the router routes such keys the same way. -/
theorem router_secondary_route (st : RouterState) (k P : String)
    (hP : projectPrefixOf k = some P)
    (hmem : P ∈ st.secondaryProjectPrefixes ∨ P ∈ st.redhatProjectPrefixes) :
    Monolith.get_jira_client st k = st.secondaryJira ∧
    (∀ h, st.secondaryJira = some h → Monolith.get_jira_client st k = some h) ∧
    (st.secondaryJira = none → Monolith.get_jira_client st k = none) ∧
    (∀ hp, st.primaryJira = some hp → st.secondaryJira ≠ some hp →
      Monolith.get_jira_client st k ≠ some hp) ∧
    (∀ (cfg : ModularConfig) (pj sj : Option JiraHandle),
      P ∈ cfg.secondaryProjectPrefixes ∨ P ∈ cfg.redhatProjectPrefixes →
      Modular.get_jira_client cfg pj sj k = .ok sj) := by
  have hne := ne_empty_of_projectPrefixOf hP
  have hmain : Monolith.get_jira_client st k = st.secondaryJira := by
    simp [Monolith.get_jira_client, hne, hP, hmem]
  refine ⟨hmain, fun h hh => by rw [hmain, hh], fun hh => by rw [hmain, hh],
    fun hp hhp hne2 => by rw [hmain]; exact fun hcontra => hne2 hcontra,
    fun cfg pj sj hmem2 => by simp [Modular.get_jira_client, hne, hP, hmem2]⟩

/-- C2 witness: with the secondary backend available and the prefix CNV in
its prefix set, the key CNV-500 is routed to the secondary handle. -/
theorem router_secondary_route_witness :
    projectPrefixOf "CNV-500" = some "CNV" ∧
    ("CNV" ∈ (["CNV"] : List String) ∨ "CNV" ∈ (["CNV"] : List String)) ∧
    Monolith.get_jira_client ⟨some ⟨0⟩, some ⟨1⟩, ["CNV"], ["CNV"]⟩ "CNV-500"
      = some ⟨1⟩ :=
  ⟨by decide, by decide,
    (router_secondary_route ⟨some ⟨0⟩, some ⟨1⟩, ["CNV"], ["CNV"]⟩ "CNV-500" "CNV"
      (by decide) (by decide)).2.1 ⟨1⟩ rfl⟩

/-- C4: a well-formed key whose prefix is in neither secondary prefix set
is routed by the monolithic router to the primary (default) client: its
handle when available, None otherwise.  (The modular copy instead raises
AttributeError on such keys; see the C5 theorem.) -/
theorem router_default_route (st : RouterState) (k P : String)
    (hP : projectPrefixOf k = some P)
    (hsec : P ∉ st.secondaryProjectPrefixes)
    (hred : P ∉ st.redhatProjectPrefixes) :
    Monolith.get_jira_client st k = st.primaryJira ∧
    (∀ h, st.primaryJira = some h → Monolith.get_jira_client st k = some h) ∧
    (st.primaryJira = none → Monolith.get_jira_client st k = none) := by
  have hne := ne_empty_of_projectPrefixOf hP
  have hmain : Monolith.get_jira_client st k = st.primaryJira := by
    simp [Monolith.get_jira_client, hne, hP, hsec, hred]
  exact ⟨hmain, fun h hh => by rw [hmain, hh], fun hh => by rw [hmain, hh]⟩

/-- C4 witness: the key ABC-1, whose prefix matches no secondary prefix,
is routed to the available primary handle. -/
theorem router_default_route_witness :
    projectPrefixOf "ABC-1" = some "ABC" ∧
    "ABC" ∉ (["CNV"] : List String) ∧
    Monolith.get_jira_client ⟨some ⟨0⟩, some ⟨1⟩, ["CNV"], ["CNV"]⟩ "ABC-1"
      = some ⟨0⟩ :=
  ⟨by decide, by decide,
    (router_default_route ⟨some ⟨0⟩, some ⟨1⟩, ["CNV"], ["CNV"]⟩ "ABC-1" "ABC"
      (by decide) (by decide) (by decide)).2.1 ⟨0⟩ rfl⟩

/-- C5: evaluating the modular get_jira_client at the key ABC-1 against
the Config produced by _load_jira_config from an empty environment, with
both clients initialized, raises AttributeError: the fallback branch
reads config.allowed_projects, an attribute the Config class never
defines.  The spec requires a handle or None and no exception, so this is
a defect of the code. -/
theorem modular_router_attribute_error :
    Modular.get_jira_client (loadJiraConfig none none) (some ⟨0⟩) (some ⟨1⟩)
      "ABC-1" = .error (.attributeError "allowed_projects") := rfl

/-- C9 counterexample: with a configured and available default (primary)
backend, the modular router returns None, not the primary handle, for a
key from which no prefix can be extracted. -/
theorem router_no_prefix_counterexample :
    Modular.get_jira_client (loadJiraConfig none none) (some ⟨0⟩) (some ⟨1⟩)
        "not-a-valid-key" = .ok none ∧
    (Except.ok none : Except PyError (Option JiraHandle)) ≠ .ok (some ⟨0⟩) :=
  ⟨rfl, by decide⟩

/-- C9 amended: for a non-empty key with no extractable prefix the
monolithic router returns the primary (default) client, which is its
handle when available and None otherwise; for the empty key it returns
None; the modular router instead returns None for every key with no
extractable prefix. -/
theorem router_no_prefix_amended :
    (∀ (st : RouterState) (k : String), k ≠ "" → projectPrefixOf k = none →
      Monolith.get_jira_client st k = st.primaryJira) ∧
    (∀ st : RouterState, Monolith.get_jira_client st "" = none) ∧
    (∀ (cfg : ModularConfig) (pj sj : Option JiraHandle) (k : String),
      projectPrefixOf k = none →
      Modular.get_jira_client cfg pj sj k = .ok none) := by
  refine ⟨fun st k hk h => by simp [Monolith.get_jira_client, hk, h],
    fun st => rfl, fun cfg pj sj k h => ?_⟩
  by_cases hk : k = ""
  · subst hk; rfl
  · simp [Modular.get_jira_client, hk, h]

/-- C9 amended witness: the all-lowercase key abc has no extractable
prefix and the monolithic router returns the available primary handle. -/
theorem router_no_prefix_amended_witness :
    ("abc" : String) ≠ "" ∧ projectPrefixOf "abc" = none ∧
    Monolith.get_jira_client ⟨some ⟨0⟩, some ⟨1⟩, ["CNV"], ["CNV"]⟩ "abc"
      = some ⟨0⟩ :=
  ⟨by decide, by decide,
    by rw [router_no_prefix_amended.1 ⟨some ⟨0⟩, some ⟨1⟩, ["CNV"], ["CNV"]⟩ "abc"
      (by decide) (by decide)]⟩

lemma cacheErase_cons_self (e : CacheEntry) (rest : Cache) :
    cacheErase (e :: rest) e.1 = rest := by
  unfold cacheErase
  rw [List.eraseP_cons]
  simp

lemma runInserts_append (cfg : OllamaConfig) :
    ∀ (l1 l2 : List InsertItem) (cache : Cache),
      runInserts cfg cache (l1 ++ l2)
        = runInserts cfg (runInserts cfg cache l1) l2 := by
  intro l1
  induction l1 with
  | nil => intro l2 cache; rfl
  | cons it rest ih =>
    intro l2 cache
    simp only [List.cons_append, runInserts]
    exact ih l2 _

lemma runInserts_fill (cfg : OllamaConfig) :
    ∀ (items : List InsertItem) (cache : Cache),
      ((cache.length : Int) + items.length ≤ cfg.cacheSize) →
      (cache.map (fun e => e.1) ++ items.map itemKey).Nodup →
      runInserts cfg cache items = cache ++ items.map itemEntry := by
  intro items
  induction items with
  | nil => intro cache _ _; simp [runInserts]
  | cons it rest ih =>
    intro cache hlen hkeys
    have hmiss : cacheLookup cache (cacheKeyOf it.prompt it.systemMessage) = none := by
      rw [cacheLookup_eq_none]
      intro e he heq
      have hdisj := (List.nodup_append.mp hkeys).2.2
      refine hdisj (List.mem_map_of_mem _ he) ?_
      rw [heq]
      simp only [List.map_cons]
      exact List.mem_cons_self _ _
    have hsmall : (cache.length : Int) < cfg.cacheSize := by
      simp only [List.length_cons] at hlen
      push_cast at hlen
      omega
    simp only [runInserts]
    rw [askOllama_miss hmiss, askOllamaCompute_insert_small it.httpText it.value hsmall]
    have hkeys2 : ((cache ++ [itemEntry it]).map (fun e => e.1)
        ++ rest.map itemKey).Nodup := by
      simp only [List.map_append, List.map_cons, List.map_nil, List.append_assoc,
        List.singleton_append, itemEntry] at hkeys ⊢
      exact hkeys
    have hlen2 : (((cache ++ [itemEntry it]).length : Int) + rest.length
        ≤ cfg.cacheSize) := by
      simp only [List.length_append, List.length_cons, List.length_nil] at hlen ⊢
      push_cast at hlen ⊢
      omega
    have hrec := ih (cache ++ [itemEntry it]) hlen2 hkeys2
    simp only [itemEntry, itemKey] at hrec
    rw [hrec]
    simp [itemEntry, itemKey]

lemma oldestEntry_entries_head (b0 : InsertItem) (brest : List InsertItem)
    (htimes : ∀ it ∈ brest, b0.time ≤ it.time) :
    oldestEntry ((b0 :: brest).map itemEntry) = some (itemEntry b0) := by
  rw [List.map_cons]
  apply oldestEntry_cons_min
  intro x hx
  obtain ⟨it, hit, rfl⟩ := List.mem_map.mp hx
  exact htimes it hit

/-- C1: a get-or-compute call that misses and computes successfully caches
the value and returns it, and an immediately following call with the same
prompt and system message returns the identical cached value with the
cache unchanged, whatever its own HTTP outcome would have been — the
second call never consults the network. -/
theorem cache_idempotent (cfg : OllamaConfig) (cache : Cache) (t1 t2 : Int)
    (p : String) (s : Option String) (txt v : String)
    (hsize : 0 < cfg.cacheSize)
    (hmiss : cacheLookup cache (cacheKeyOf p s) = none)
    (hfresh : t2 - t1 < cfg.cacheTtl) :
    (askOllama cfg cache t1 p s (.resp 200 txt (some v))).1 = v ∧
    ∀ o2, askOllama cfg (askOllama cfg cache t1 p s (.resp 200 txt (some v))).2
        t2 p s o2
      = (v, (askOllama cfg cache t1 p s (.resp 200 txt (some v))).2) := by
  rw [askOllama_miss hmiss]
  refine ⟨askOllamaCompute_insert_val txt v cache hsize, fun o2 => ?_⟩
  by_cases hfull : cfg.cacheSize ≤ (cache.length : Int)
  · have hne : cache ≠ [] := by
      intro h
      subst h
      simp only [List.length_nil, Int.ofNat_zero] at hfull
      omega
    obtain ⟨old, hold⟩ := oldestEntry_isSome hne
    rw [askOllamaCompute_insert_full txt v hfull hold]
    have h1 : cacheLookup (cacheErase cache old.1) (cacheKeyOf p s) = none :=
      cacheLookup_none_of_sublist (cacheErase_sublist _ _) hmiss
    exact askOllama_hit (cacheLookup_append_self h1) hfresh o2
  · rw [askOllamaCompute_insert_small txt v (not_le.mp hfull)]
    exact askOllama_hit (cacheLookup_append_self hmiss) hfresh o2

/-- C1 witness: a concrete miss-then-hit pair on an empty cache. -/
theorem cache_idempotent_witness :
    (0 : Int) < 50 ∧ cacheLookup ([] : Cache) (cacheKeyOf "p" none) = none ∧
    (1 : Int) - 0 < 3600 ∧
    (askOllama ⟨50, 3600⟩ [] 0 "p" none (.resp 200 "t" (some "v"))).1 = "v" ∧
    askOllama ⟨50, 3600⟩
        (askOllama ⟨50, 3600⟩ [] 0 "p" none (.resp 200 "t" (some "v"))).2
        1 "p" none (.exn "down")
      = ("v", (askOllama ⟨50, 3600⟩ [] 0 "p" none (.resp 200 "t" (some "v"))).2) := by
  have h := cache_idempotent ⟨50, 3600⟩ [] 0 1 "p" none "t" "v"
    (by decide) rfl (by decide)
  exact ⟨by decide, rfl, by decide, h.1, h.2 (.exn "down")⟩

/-- C6: a present and unexpired entry is returned as a hit with the cache
untouched and the outcome never consulted; once ttl_seconds or more have
elapsed, the stale entry is deleted even when the recomputation fails, a
successful recomputation re-inserts the key with the new timestamp, and a
missing key likewise consults the outcome. -/
theorem cache_ttl (cfg : OllamaConfig) (cache : Cache) (now ts : Int)
    (p : String) (s : Option String) (v : String)
    (hl : cacheLookup cache (cacheKeyOf p s) = some (ts, v)) :
    (now - ts < cfg.cacheTtl → ∀ o, askOllama cfg cache now p s o = (v, cache)) ∧
    (cfg.cacheTtl ≤ now - ts →
      (∀ m, askOllama cfg cache now p s (.exn m)
        = ("Error calling Ollama: " ++ m, cacheErase cache (cacheKeyOf p s))) ∧
      ((cache.length : Int) ≤ cfg.cacheSize → ∀ txt w,
        askOllama cfg cache now p s (.resp 200 txt (some w))
          = (w, cacheErase cache (cacheKeyOf p s) ++ [(cacheKeyOf p s, now, w)]))) ∧
    (∀ c2 : Cache, cacheLookup c2 (cacheKeyOf p s) = none → ∀ m,
      askOllama cfg c2 now p s (.exn m) = ("Error calling Ollama: " ++ m, c2)) := by
  refine ⟨fun hfresh o => askOllama_hit hl hfresh o, fun hstale => ?_,
    fun c2 h2 m => by rw [askOllama_miss h2]; rfl⟩
  have hst : ¬ (now - ts < cfg.cacheTtl) := not_lt.mpr hstale
  refine ⟨fun m => by rw [askOllama_expired hl hst]; rfl, fun hlen txt w => ?_⟩
  rw [askOllama_expired hl hst]
  have hlt := length_cacheErase_lt hl
  have hroom : ((cacheErase cache (cacheKeyOf p s)).length : Int) < cfg.cacheSize := by
    omega
  rw [askOllamaCompute_insert_small txt w hroom]

/-- C6 witness: a hit one second after insertion with TTL 3600, on a
one-entry cache. -/
theorem cache_ttl_witness :
    cacheLookup [("p", 0, "v")] (cacheKeyOf "p" none) = some (0, "v") ∧
    (1 : Int) - 0 < 3600 ∧
    askOllama ⟨50, 3600⟩ [("p", 0, "v")] 1 "p" none (.exn "x")
      = ("v", [("p", 0, "v")]) := by
  have h := cache_ttl ⟨50, 3600⟩ [("p", 0, "v")] 1 0 "p" none "v" rfl
  exact ⟨rfl, by decide, h.1 (by decide) (.exn "x")⟩

/-- C7: when the computation fails — transport exception, non-200 status,
or malformed body — the cache is left exactly as it was (no entry for the
key, no eviction), and a subsequent identical call computes again and
returns the newly computed value. -/
theorem cache_failure_not_cached (cfg : OllamaConfig) (cache : Cache)
    (now t2 : Int) (p : String) (s : Option String)
    (hmiss : cacheLookup cache (cacheKeyOf p s) = none) :
    (∀ m, askOllama cfg cache now p s (.exn m)
      = ("Error calling Ollama: " ++ m, cache)) ∧
    (∀ st txt parsed, st ≠ 200 →
      askOllama cfg cache now p s (.resp st txt parsed)
        = ("Error from Ollama API: " ++ toString st, cache)) ∧
    (∀ txt, askOllama cfg cache now p s (.resp 200 txt none)
      = (handleJsonError txt, cache)) ∧
    (0 < cfg.cacheSize → ∀ txt w,
      (askOllama cfg cache t2 p s (.resp 200 txt (some w))).1 = w) := by
  refine ⟨fun m => by rw [askOllama_miss hmiss]; rfl,
    fun st txt parsed hst => by
      rw [askOllama_miss hmiss, askOllamaCompute_badStatus txt parsed cache hst],
    fun txt => by rw [askOllama_miss hmiss, askOllamaCompute_parseError],
    fun hsize txt w => by
      rw [askOllama_miss hmiss]
      exact askOllamaCompute_insert_val txt w cache hsize⟩

/-- C7 witness: a transport failure on an empty cache leaves it empty and
a retry computes the value. -/
theorem cache_failure_not_cached_witness :
    cacheLookup ([] : Cache) (cacheKeyOf "p" none) = none ∧
    askOllama ⟨50, 3600⟩ [] 0 "p" none (.exn "boom")
      = ("Error calling Ollama: boom", []) ∧
    (askOllama ⟨50, 3600⟩ [] 1 "p" none (.resp 200 "t" (some "w"))).1 = "w" := by
  have h := cache_failure_not_cached ⟨50, 3600⟩ [] 0 1 "p" none rfl
  exact ⟨rfl, h.1 "boom", h.2.2.2 (by decide) "t" "w"⟩

/-- C8 counterexample: failures are not surfaced verbatim (the transport
message boom comes back wrapped in an error string) and are not
distinguishable by type from successes (a 500 status produces the very
same string value that a successful call extracting that text would
return). -/
theorem cache_errors_not_typed :
    (askOllama ⟨50, 3600⟩ [] 0 "p" none (.exn "boom")).1
      = "Error calling Ollama: boom" ∧
    "Error calling Ollama: boom" ≠ "boom" ∧
    (askOllama ⟨50, 3600⟩ [] 0 "p" none (.resp 500 "body" none)).1
      = (askOllama ⟨50, 3600⟩ [] 0 "q" none
          (.resp 200 "t" (some "Error from Ollama API: 500"))).1 :=
  ⟨rfl, by decide, rfl⟩

/-- C8 amended: every failure of the computation is surfaced to the caller
as a plain string on the same channel as successful responses — a
transport error as an error-prefixed copy of its message (hence not
verbatim), a non-200 status as an error string carrying only the status
code, a malformed body as the salvage result of _handle_json_error — and
no failure is cached; a success whose extracted text happens to equal an
error string is indistinguishable from the corresponding failure. -/
theorem cache_errors_plain_strings (cfg : OllamaConfig) (cache : Cache)
    (now : Int) (p : String) (s : Option String)
    (hmiss : cacheLookup cache (cacheKeyOf p s) = none) :
    (∀ m, askOllama cfg cache now p s (.exn m)
        = ("Error calling Ollama: " ++ m, cache) ∧
      "Error calling Ollama: " ++ m ≠ m) ∧
    (∀ st txt parsed, st ≠ 200 →
      askOllama cfg cache now p s (.resp st txt parsed)
        = ("Error from Ollama API: " ++ toString st, cache)) ∧
    (∀ txt, askOllama cfg cache now p s (.resp 200 txt none)
        = (handleJsonError txt, cache)) ∧
    (0 < cfg.cacheSize → ∀ m txt,
      (askOllama cfg cache now p s
          (.resp 200 txt (some ("Error calling Ollama: " ++ m)))).1
        = (askOllama cfg cache now p s (.exn m)).1) := by
  refine ⟨fun m => ⟨by rw [askOllama_miss hmiss]; rfl, fun h => ?_⟩,
    fun st txt parsed hst => by
      rw [askOllama_miss hmiss, askOllamaCompute_badStatus txt parsed cache hst],
    fun txt => by rw [askOllama_miss hmiss, askOllamaCompute_parseError],
    fun hsize m txt => ?_⟩
  · have hcong := congrArg String.length h
    rw [String.length_append] at hcong
    have h22 : ("Error calling Ollama: ").length = 22 := rfl
    omega
  · rw [askOllama_miss hmiss, askOllama_miss hmiss,
      askOllamaCompute_insert_val _ _ cache hsize]
    rfl

/-- C8 amended witness: concrete transport failure against an empty
cache. -/
theorem cache_errors_plain_strings_witness :
    cacheLookup ([] : Cache) (cacheKeyOf "p" none) = none ∧
    askOllama ⟨50, 3600⟩ [] 0 "p" none (.exn "boom")
      = ("Error calling Ollama: boom", []) := by
  have h := cache_errors_plain_strings ⟨50, 3600⟩ [] 0 "p" none rfl
  exact ⟨rfl, (h.1 "boom").1⟩

/-- C3: the cache never exceeds cacheSize entries after a completed
operation; a successful insertion on a miss either appends without
eviction (room left) or evicts exactly one entry, the first entry of
minimal timestamp; and filling an empty cache with cacheSize + 1 distinct
keys at nondecreasing times leaves exactly cacheSize entries with
precisely the first-inserted entry evicted. -/
theorem cache_capacity :
    (∀ (cfg : OllamaConfig) (cache : Cache) (now : Int) (p : String)
        (s : Option String) (o : HttpOutcome),
      (cache.length : Int) ≤ cfg.cacheSize →
      (((askOllama cfg cache now p s o).2).length : Int) ≤ cfg.cacheSize) ∧
    (∀ (cfg : OllamaConfig) (cache : Cache) (now : Int) (p : String)
        (s : Option String) (txt v : String),
      cacheLookup cache (cacheKeyOf p s) = none → 0 < cfg.cacheSize →
      ((cache.length : Int) < cfg.cacheSize ∧
        (askOllama cfg cache now p s (.resp 200 txt (some v))).2
          = cache ++ [(cacheKeyOf p s, now, v)]) ∨
      (∃ old, oldestEntry cache = some old ∧ old ∈ cache ∧
        (∀ x ∈ cache, old.2.1 ≤ x.2.1) ∧
        (askOllama cfg cache now p s (.resp 200 txt (some v))).2
          = cacheErase cache old.1 ++ [(cacheKeyOf p s, now, v)])) ∧
    (∀ (cfg : OllamaConfig) (b0 : InsertItem) (brest : List InsertItem)
        (last : InsertItem),
      cfg.cacheSize = ((b0 :: brest).length : Int) →
      ((b0 :: brest ++ [last]).map itemKey).Nodup →
      ((b0 :: brest ++ [last]).map InsertItem.time).Pairwise (· ≤ ·) →
      runInserts cfg [] (b0 :: brest ++ [last])
        = (brest ++ [last]).map itemEntry ∧
      (((runInserts cfg [] (b0 :: brest ++ [last])).length : Int)
        = cfg.cacheSize)) := by
  refine ⟨fun cfg cache now p s o hc => askOllama_length hc,
    fun cfg cache now p s txt v hmiss hsize => ?_,
    fun cfg b0 brest last hsize hkeys htimes => ?_⟩
  · by_cases hfull : cfg.cacheSize ≤ (cache.length : Int)
    · right
      have hne : cache ≠ [] := by
        intro h
        subst h
        simp only [List.length_nil, Int.ofNat_zero] at hfull
        omega
      obtain ⟨old, hold⟩ := oldestEntry_isSome hne
      exact ⟨old, hold, oldestEntry_mem hold, oldestEntry_le hold, by
        rw [askOllama_miss hmiss, askOllamaCompute_insert_full txt v hfull hold]⟩
    · exact Or.inl ⟨not_le.mp hfull, by
        rw [askOllama_miss hmiss,
          askOllamaCompute_insert_small txt v (not_le.mp hfull)]⟩
  · have hsplit : b0 :: brest ++ [last] = (b0 :: brest) ++ [last] := rfl
    have hkeysbody : (([] : Cache).map (fun e => e.1)
        ++ (b0 :: brest).map itemKey).Nodup := by
      simp only [List.map_nil, List.nil_append]
      have hsub : ((b0 :: brest).map itemKey).Sublist
          ((b0 :: brest ++ [last]).map itemKey) := by
        refine List.Sublist.map itemKey ?_
        rw [hsplit]
        exact (b0 :: brest).sublist_append_left [last]
      exact hkeys.sublist hsub
    have hfill := runInserts_fill cfg (b0 :: brest) []
      (by simp [hsize]) hkeysbody
    rw [hsplit, runInserts_append cfg (b0 :: brest) [last] [], hfill]
    simp only [List.nil_append]
    have hmisslast : cacheLookup ((b0 :: brest).map itemEntry)
        (cacheKeyOf last.prompt last.systemMessage) = none := by
      rw [cacheLookup_eq_none]
      intro e he heq
      obtain ⟨it, hit, rfl⟩ := List.mem_map.mp he
      have hdisj : itemKey it ≠ itemKey last := by
        have hnd : (itemKey b0 :: (brest.map itemKey ++ [itemKey last])).Nodup := by
          simpa using hkeys
        rcases List.mem_cons.mp hit with rfl | hmem
        · intro hcontra
          have := (List.nodup_cons.mp hnd).1
          exact this (by rw [hcontra]; exact List.mem_append_right _ (List.mem_singleton.mpr rfl))
        · intro hcontra
          have hnd2 := (List.nodup_cons.mp hnd).2
          have := List.disjoint_of_nodup_append hnd2
          exact this (List.mem_map_of_mem itemKey hmem) (by rw [hcontra]; simp)
      exact hdisj heq
    have hfulllen : cfg.cacheSize ≤ (((b0 :: brest).map itemEntry).length : Int) := by
      rw [List.length_map, hsize]
    have htimes1 := List.pairwise_map.mp htimes
    have hhead := (List.pairwise_cons.mp htimes1).1
    have htimes0 : ∀ it ∈ brest, b0.time ≤ it.time := fun it hit =>
      hhead it (List.mem_append_left _ hit)
    have hold := oldestEntry_entries_head b0 brest htimes0
    simp only [runInserts]
    rw [askOllama_miss hmisslast, askOllamaCompute_insert_full last.httpText last.value
      hfulllen hold]
    have herase : cacheErase ((b0 :: brest).map itemEntry) (itemEntry b0).1
        = brest.map itemEntry := by
      rw [List.map_cons]
      exact cacheErase_cons_self (itemEntry b0) (brest.map itemEntry)
    rw [herase]
    constructor
    · simp [itemEntry, itemKey]
    · simp only [List.length_append, List.length_map, List.length_cons,
        List.length_nil, hsize]

/-- C3 witness: with cacheSize 2, inserting the three distinct prompts A,
B, C at times 0, 1, 2 leaves exactly the entries for B and C, the entry
for A having been evicted. -/
theorem cache_capacity_witness :
    ((2 : Int) = ((⟨"A", none, 0, "t", "a"⟩ :: [⟨"B", none, 1, "t", "b"⟩]
        : List InsertItem).length : Int)) ∧
    runInserts ⟨2, 3600⟩ []
        [⟨"A", none, 0, "t", "a"⟩, ⟨"B", none, 1, "t", "b"⟩, ⟨"C", none, 2, "t", "c"⟩]
      = [("B", 1, "b"), ("C", 2, "c")] := by
  have h := cache_capacity.2.2 ⟨2, 3600⟩ ⟨"A", none, 0, "t", "a"⟩
    [⟨"B", none, 1, "t", "b"⟩] ⟨"C", none, 2, "t", "c"⟩ (by decide) (by decide)
    (by decide)
  exact ⟨by decide, h.1⟩

/-- C10: the cache key derivation concatenates prompt and system message,
so the distinct inputs (AB, no system message) and (A, system message B)
share one cache key, and a response cached for the former is served as a
hit to the latter even when its own computation would have failed. -/
theorem cache_key_collision :
    cacheKeyOf "AB" none = cacheKeyOf "A" (some "B") ∧
    (askOllama ⟨50, 3600⟩ [] 0 "AB" none (.resp 200 "t" (some "resp"))).2
      = [("AB", 0, "resp")] ∧
    (askOllama ⟨50, 3600⟩ [("AB", 0, "resp")] 1 "A" (some "B") (.exn "down")).1
      = "resp" :=
  ⟨rfl, rfl, rfl⟩

end JiraMcp
